import Mathlib

/-!
Verification of the AdaSeq `SequenceLabelingModel`
(`adaseq/models/sequence_labeling_model.py`).

Tensors are embedded as nested lists of rationals.  The transcendental
functions `exp` and `log` supplied by the tensor library are abstracted
into an `Analytic` context so that every definition stays computable;
theorems that need analytic facts (monotonicity, positivity) take them
as hypotheses.  Components of the repository that are imported by the
model but whose source is not available (`CRF`, `PartialCRF`,
`WordDropout`, `Encoder`, `get_tokens_mask`, `PAD_LABEL_ID`) are
modelled from the spec and marked as such in their doc comments.
-/

namespace AdaSeq

/-- A vector of scalars: the last tensor dimension. -/
abbrev Vec := List ℚ

/-- A matrix: sequence position by label (or hidden) dimension. -/
abbrev Mat := List Vec

/-- A rank-3 tensor: batch by sequence position by last dimension. -/
abbrev Tensor3 := List Mat

/-- A boolean mask of shape batch by sequence position. -/
abbrev BoolMask := List (List Bool)

/-- The transcendental functions of the tensor library, abstracted so the
embedding stays computable.  PyTorch instantiates them with the real
exponential and logarithm. -/
structure Analytic where
  exp : ℚ → ℚ
  log : ℚ → ℚ

/-- Numeric value of a mask entry, as PyTorch multiplies masks into tensors. -/
def maskVal (b : Bool) : ℚ := if b then 1 else 0

/-- Dot product of two vectors (zip semantics: extra entries are dropped). -/
def dot (a b : Vec) : ℚ := ((a.zip b).map (fun p => p.1 * p.2)).sum

/-- Sum of all entries of a rank-3 tensor: `t.sum()`. -/
def sum3 (t : Tensor3) : ℚ := (t.map (fun m => (m.map List.sum).sum)).sum

/-- Elementwise division of a tensor by a scalar: `t / c`. -/
def divScalar3 (t : Tensor3) (c : ℚ) : Tensor3 :=
  t.map (fun m => m.map (fun r => r.map (fun x => x / c)))

/-- Elementwise multiplication of a tensor by a scalar: `t * c`. -/
def mulScalar3 (t : Tensor3) (c : ℚ) : Tensor3 :=
  t.map (fun m => m.map (fun r => r.map (fun x => x * c)))

/-- Softmax of one vector: `F.softmax(row, dim=-1)`. -/
def softmaxRow (A : Analytic) (row : Vec) : Vec :=
  let s := (row.map A.exp).sum
  row.map (fun x => A.exp x / s)

/-- Log-softmax of one vector: `F.log_softmax(row, dim=-1)`,
i.e. `row - logsumexp(row)`. -/
def logSoftmaxRow (A : Analytic) (row : Vec) : Vec :=
  let z := A.log ((row.map A.exp).sum)
  row.map (fun x => x - z)

/-- `F.softmax(t, dim=-1)` on a rank-3 tensor. -/
def softmax3 (A : Analytic) (t : Tensor3) : Tensor3 :=
  t.map (fun m => m.map (softmaxRow A))

/-- `F.log_softmax(t, dim=-1)` on a rank-3 tensor. -/
def logSoftmax3 (A : Analytic) (t : Tensor3) : Tensor3 :=
  t.map (fun m => m.map (logSoftmaxRow A))

/-- Pointwise `F.kl_div` term with `log_target=False`: the first argument is
a log-probability, the second a probability treated as the target; the
value is `target * (log target - input)`. -/
def klDivElem (A : Analytic) (input target : ℚ) : ℚ := target * (A.log target - input)

/-- `F.kl_div(input, target, reduction='none')`: elementwise over tensors
(zip semantics on each dimension). -/
def klDiv3 (A : Analytic) (input target : Tensor3) : Tensor3 :=
  List.zipWith (fun mi mt => List.zipWith (fun ri rt =>
    List.zipWith (klDivElem A) ri rt) mi mt) input target

/-- Multiplication of a rank-3 tensor by `mask.unsqueeze(-1)`: every scalar
of a position is multiplied by that position's mask value. -/
def mulMaskUnsqueeze (t : Tensor3) (mask : BoolMask) : Tensor3 :=
  List.zipWith (fun m mrow =>
    List.zipWith (fun r b => r.map (fun x => x * maskVal b)) m mrow) t mask

/-- `targets * mask` on integer label tensors: entries at masked-out
positions are zeroed. -/
def mulMask (targets : List (List ℤ)) (mask : BoolMask) : List (List ℤ) :=
  List.zipWith (fun tr mr =>
    List.zipWith (fun t b => t * (if b then (1 : ℤ) else 0)) tr mr) targets mask

/-- Index of the first maximum of a list: `tensor.argmax(-1)` on one row
(PyTorch returns the first maximal index). -/
def argmaxAux : List ℚ → ℕ → ℕ → ℚ → ℕ
  | [], _, bi, _ => bi
  | x :: xs, i, bi, bv => if bv < x then argmaxAux xs (i + 1) i x else argmaxAux xs (i + 1) bi bv

/-- Argmax over the last dimension for a single vector. -/
def argmaxIdx : Vec → ℕ
  | [] => 0
  | x :: xs => argmaxAux xs 1 0 x

/-- Modelled from the spec: tokenized input as the model receives it.  The
`mask` field is the attention mask that `get_tokens_mask` (whose source is
not under `src/`) extracts; `ids` stands for the token contents fed to the
encoder. -/
structure Tokens where
  ids : List (List ℕ)
  mask : BoolMask

/-- Modelled from the spec: `get_tokens_mask(tokens, n)` (source not under
`src/`) returns the boolean token mask of the batch, cut to the sequence
length `n` of the logits. -/
def get_tokens_mask (tokens : Tokens) (n : ℕ) : BoolMask :=
  tokens.mask.map (fun r => r.take n)

/-- Modelled from the spec: the encoder is an external collaborator mapping
tokenized input to per-token embeddings, with a configured hidden size. -/
structure Encoder where
  hidden_size : ℕ
  run : Tokens → Tensor3

/-- Modelled from the spec: `WordDropout` (source not under `src/`)
stochastically zeroes entire token embeddings (not individual features)
during training.  The random draw is supplied as a decision function from
batch index and position to whether that token's embedding is dropped. -/
structure WordDropout where
  rate : ℚ
  dropDecision : ℕ → ℕ → Bool

/-- Applying word dropout: active only in training mode; a dropped position
has its whole embedding vector replaced by zeros. -/
def WordDropout.apply (d : WordDropout) (training : Bool) (x : Tensor3) : Tensor3 :=
  if training then
    x.mapIdx (fun b m => m.mapIdx (fun t v =>
      if d.dropDecision b t then v.map (fun _ => (0 : ℚ)) else v))
  else x

/-- Modelled from the spec: `PAD_LABEL_ID` from `adaseq.data.constant`
(source not under `src/`), the label id stored at padding positions and
ignored by the cross-entropy loss. -/
def PAD_LABEL_ID : ℤ := -100

/-- A linear layer `nn.Linear(in_features, out_features)`: weight of shape
`out_features × in_features` and bias of length `out_features`. -/
structure Linear where
  in_features : ℕ
  out_features : ℕ
  weight : List Vec
  bias : Vec

/-- Construction of `nn.Linear(inF, outF)`: the shape comes from the
arguments, the parameter values from the (random) initializers. -/
def Linear.init (inF outF : ℕ) (wInit : ℕ → ℕ → ℚ) (bInit : ℕ → ℚ) : Linear :=
  { in_features := inF
    out_features := outF
    weight := (List.range outF).map (fun i => (List.range inF).map (wInit i))
    bias := (List.range outF).map bInit }

/-- Applying a linear layer to one embedding vector. -/
def Linear.applyVec (l : Linear) (x : Vec) : Vec :=
  (l.weight.zip l.bias).map (fun wb => dot wb.1 x + wb.2)

/-- Applying a linear layer tokenwise to a rank-3 tensor of embeddings. -/
def Linear.apply3 (l : Linear) (t : Tensor3) : Tensor3 :=
  t.map (fun m => m.map l.applyVec)

/-- Log-sum-exp of a list of scores. -/
def logsumexp (A : Analytic) (xs : List ℚ) : ℚ := A.log ((xs.map A.exp).sum)

/-- Which CRF class was instantiated: the plain `CRF` or the `PartialCRF`
variant for partially labeled sequences. -/
inductive CRFVariant where
  | standard
  | partialVariant
deriving DecidableEq

/-- Modelled from the spec: the `CRF` / `PartialCRF` decoder modules
(source not under `src/`).  A CRF scores a label sequence by per-position
emission scores plus pairwise transition scores; it is trained by
maximizing sequence log-likelihood via a forward (log-sum-exp) recurrence
and decoded via Viterbi dynamic programming.  `PartialCRF` differs in
training: it marginalizes over the unknown positions of a partially
labeled sequence. -/
structure CRF where
  num_tags : ℕ
  transitions : List Vec
  variant : CRFVariant

/-- Construction of the CRF module for a given label count; the transition
matrix values come from the (random) initializer. -/
def CRF.init (n : ℕ) (trInit : ℕ → ℕ → ℚ) (variant : CRFVariant) : CRF :=
  { num_tags := n
    transitions := (List.range n).map (fun i => (List.range n).map (trInit i))
    variant := variant }

/-- Entry `(i, j)` of a matrix, with default `0` outside the shape. -/
def idx2 (m : List Vec) (i j : ℕ) : ℚ := (m.getD i []).getD j 0

/-- Keeping the entries of a per-position list whose mask bit is on: how a
boolean token mask restricts a sequence to its real tokens. -/
def applyMask {α : Type} (rows : List α) (mask : List Bool) : List α :=
  ((rows.zip mask).filter (fun p => p.2)).map (fun p => p.1)

/-- Score of one label sequence: the sum of the emission score at every
position plus the transition score of every adjacent label pair. -/
def seqScore (crf : CRF) (ems : Mat) (tags : List ℕ) : ℚ :=
  ((ems.zip tags).map (fun et => et.1.getD et.2 0)).sum
    + ((tags.zip tags.tail).map (fun p => idx2 crf.transitions p.1 p.2)).sum

/-- One step of the forward (log-sum-exp) recurrence:
`alpha'[j] = logsumexp_i (alpha[i] + transitions[i][j]) + em[j]`. -/
def alphaStep (A : Analytic) (crf : CRF) (alpha : Vec) (em : Vec) : Vec :=
  (List.range crf.num_tags).map (fun j =>
    logsumexp A ((alpha.zip (crf.transitions.map (fun row => row.getD j 0))).map
      (fun p => p.1 + p.2)) + em.getD j 0)

/-- Log-partition (normalizer) of a CRF over one emission sequence, by the
forward recurrence. -/
def logPartition (A : Analytic) (crf : CRF) (ems : Mat) : ℚ :=
  match ems with
  | [] => 0
  | e0 :: rest =>
    logsumexp A (rest.foldl (alphaStep A crf)
      ((List.range crf.num_tags).map (fun j => e0.getD j 0)))

/-- All label sequences of a given length over `num_tags` labels. -/
def allSeqs (numTags : ℕ) : ℕ → List (List ℕ)
  | 0 => [[]]
  | n + 1 => ((List.range numTags).map (fun j => (allSeqs numTags n).map (fun s => j :: s))).flatten

/-- Label sequences consistent with a partial labeling: a negative target
marks an unknown position, a nonnegative one fixes the label there. -/
def consistentSeqs (numTags : ℕ) : List ℤ → List (List ℕ)
  | [] => [[]]
  | t :: ts =>
    ((if t < 0 then List.range numTags else [t.toNat]).map
      (fun j => (consistentSeqs numTags ts).map (fun s => j :: s))).flatten

/-- Log-likelihood of one (masked) tagged sequence.  The plain CRF uses the
score of the given sequence as numerator; the partial variant marginalizes
over the sequences consistent with the known labels. -/
def CRF.logLikelihood (A : Analytic) (crf : CRF) (ems : Mat) (tags : List ℤ) : ℚ :=
  let numerator :=
    match crf.variant with
    | .standard => seqScore crf ems (tags.map Int.toNat)
    | .partialVariant => logsumexp A ((consistentSeqs crf.num_tags tags).map (seqScore crf ems))
  numerator - logPartition A crf ems

/-- Per-sequence log-likelihoods of a batch, each restricted by its mask
row (zip semantics over the batch). -/
def CRF.llList (A : Analytic) (crf : CRF) (emissions : Tensor3)
    (tags : List (List ℤ)) (mask : BoolMask) : List ℚ :=
  List.zipWith (fun em tm =>
    CRF.logLikelihood A crf (applyMask em tm.2.1) (applyMask tm.1 tm.2.1))
    emissions (tags.zip (mask.zip mask))

/-- The CRF `__call__`: the batch log-likelihood under the requested
reduction (the model always requests `'mean'`). -/
def CRF.forward (A : Analytic) (crf : CRF) (emissions : Tensor3)
    (tags : List (List ℤ)) (mask : BoolMask) (reduction : String) : ℚ :=
  let ll := CRF.llList A crf emissions tags mask
  if reduction = "mean" then ll.sum / ll.length else ll.sum

/-- Mean sequence log-likelihood of a batch under a CRF: what the spec says
CRF training maximizes. -/
def meanLogLikelihood (A : Analytic) (crf : CRF) (emissions : Tensor3)
    (tags : List (List ℤ)) (mask : BoolMask) : ℚ :=
  (CRF.llList A crf emissions tags mask).sum / (CRF.llList A crf emissions tags mask).length

/-- Viterbi dynamic programming over one masked emission sequence: the
highest-scoring label sequence, found by maximizing instead of
log-sum-exp, with backpointers. -/
def viterbiPath (crf : CRF) (ems : Mat) : List ℕ :=
  match ems with
  | [] => []
  | e0 :: rest =>
    let init : Vec := (List.range crf.num_tags).map (fun j => e0.getD j 0)
    let step := fun (st : Vec × List (List ℕ)) (em : Vec) =>
      let choices := (List.range crf.num_tags).map (fun j =>
        let scores := (List.range crf.num_tags).map (fun i =>
          st.1.getD i 0 + idx2 crf.transitions i j)
        let b := argmaxIdx scores
        (scores.getD b 0 + em.getD j 0, b))
      (choices.map (fun c => c.1), st.2 ++ [choices.map (fun c => c.2)])
    let fin := rest.foldl step (init, [])
    let lastTag := argmaxIdx fin.1
    let back := fin.2.foldr (fun bp (acc : ℕ × List ℕ) =>
      (bp.getD acc.1 0, acc.1 :: acc.2)) (lastTag, [])
    back.1 :: back.2

/-- `crf.decode(emissions, mask=mask)`: batchwise Viterbi over the masked
positions, wrapped in an n-best dimension of size one (which the model
removes with `squeeze(0)`). -/
def CRF.decode (crf : CRF) (emissions : Tensor3) (mask : BoolMask) : List (List (List ℕ)) :=
  [List.zipWith (fun em mr => viterbiPath crf (applyMask em mr)) emissions mask]

/-- `.squeeze(0)` on the n-best dimension returned by `crf.decode`. -/
def squeeze0 (t : List (List (List ℕ))) : List (List ℕ) := t.headD []

/-- Modelled from the spec: `CRF.compute_posterior` (source not under
`src/`), the per-position log posterior marginals of the labels given the
masked emissions (used only by the `'crf_kl'` consistency loss, whose
value no claim inspects). -/
def CRF.compute_posterior (A : Analytic) (crf : CRF) (emissions : Tensor3)
    (mask : BoolMask) : Tensor3 :=
  List.zipWith (fun em mr =>
    let ems := applyMask em mr
    let seqs := allSeqs crf.num_tags ems.length
    let z := logsumexp A (seqs.map (seqScore crf ems))
    em.mapIdx (fun t _ =>
      (List.range crf.num_tags).map (fun j =>
        logsumexp A (((seqs.filter (fun s => s.getD t crf.num_tags = j)).map
          (seqScore crf ems))) - z)))
    emissions mask

/-- Exceptions the embedded model can raise. -/
inductive PyError where
  | notImplemented
  | typeError
deriving DecidableEq

/-- A value of the output dictionary returned by `forward`. -/
inductive OutVal where
  | tensor (t : Tensor3)
  | scalar (q : ℚ)
  | preds (p : List (List ℕ))

/-- The output dictionary of `forward`, as an association list of its
string keys. -/
abbrev Output := List (String × OutVal)

/-- The `SequenceLabelingModel` after construction: its submodules and
configuration attributes.  `training` is the `nn.Module` mode bit. -/
structure SequenceLabelingModel where
  id_to_label : List (ℕ × String)
  num_labels : ℕ
  encoder : Encoder
  linear : Linear
  use_dropout : Bool
  dropout : Option WordDropout
  use_crf : Bool
  crf : Option CRF
  multiview : Bool
  mv_loss_type : String
  temperature : ℚ
  mv_interpolation : ℚ
  training : Bool

/-- A CRF placeholder for the unreachable access of the `crf` attribute
when `use_crf` is false (Python would raise `AttributeError`). -/
def crfAbsent : CRF := { num_tags := 0, transitions := [], variant := .standard }

/-- A dropout placeholder for the unreachable access of the `dropout`
attribute when `use_dropout` is false. -/
def dropoutAbsent : WordDropout := { rate := 0, dropDecision := fun _ _ => false }

/-- `SequenceLabelingModel.__init__`.  The random parameter initializers of
the linear layer and the CRF transitions, the word-dropout random draw and
the module mode bit are passed explicitly; everything else follows the
constructor line by line (`id_to_label` lists the items of the Python
dict, whose keys are unique). -/
def SequenceLabelingModel.init
    (id_to_label : List (ℕ × String)) (encoder : Encoder)
    (wInit : ℕ → ℕ → ℚ) (bInit : ℕ → ℚ) (trInit : ℕ → ℕ → ℚ)
    (dropDecision : ℕ → ℕ → Bool)
    (word_dropout : ℚ) (use_crf : Bool) (multiview : Bool)
    (temperature : ℚ) (mv_loss_type : String) (mv_interpolation : ℚ)
    (partialFlag : Bool) (training : Bool) : SequenceLabelingModel :=
  { id_to_label := id_to_label
    num_labels := id_to_label.length
    encoder := encoder
    linear := Linear.init encoder.hidden_size id_to_label.length wInit bInit
    use_dropout := decide (0 < word_dropout)
    dropout := if 0 < word_dropout then some ⟨word_dropout, dropDecision⟩ else none
    use_crf := use_crf
    crf := if use_crf then
        some (CRF.init id_to_label.length trInit
          (if partialFlag then CRFVariant.partialVariant else CRFVariant.standard))
      else none
    multiview := multiview
    mv_loss_type := mv_loss_type
    temperature := temperature
    mv_interpolation := mv_interpolation
    training := training }

/-- `SequenceLabelingModel._forward`: encoder embeddings, word dropout when
enabled, then the linear projection to logits. -/
def SequenceLabelingModel._forward (m : SequenceLabelingModel) (tokens : Tokens) : Tensor3 :=
  let embed := m.encoder.run tokens
  let embed := if m.use_dropout then (m.dropout.getD dropoutAbsent).apply m.training embed
    else embed
  m.linear.apply3 embed

/-- Cross-entropy terms of a batch: the input has shape batch by class by
position (the model passes `logits.transpose(1, 2)`), the target the label
ids; positions labeled with the ignore index contribute nothing. -/
def ceTerms (A : Analytic) (ignore : ℤ) (input : Tensor3) (target : List (List ℤ)) : List ℚ :=
  ((input.zip target).map (fun bt =>
    ((bt.1.transpose.zip bt.2).filterMap (fun pt =>
      if pt.2 = ignore then none
      else some (-((logSoftmaxRow A pt.1).getD pt.2.toNat 0)))))).flatten

/-- `nn.CrossEntropyLoss(reduction='mean', ignore_index=ignore)`. -/
def crossEntropyMean (A : Analytic) (ignore : ℤ) (input : Tensor3)
    (target : List (List ℤ)) : ℚ :=
  (ceTerms A ignore input target).sum / (ceTerms A ignore input target).length

/-- `logits.transpose(1, 2)`: swapping the position and class dimensions. -/
def transpose12 (t : Tensor3) : Tensor3 := t.map List.transpose

/-- `SequenceLabelingModel._calculate_loss`: negated CRF batch
log-likelihood (after zeroing the targets outside the mask) when the CRF
is enabled, otherwise token-level cross entropy on the transposed logits. -/
def SequenceLabelingModel._calculate_loss (A : Analytic) (m : SequenceLabelingModel)
    (logits : Tensor3) (targets : List (List ℤ)) (mask : BoolMask) : ℚ :=
  if m.use_crf then
    -(CRF.forward A (m.crf.getD crfAbsent) logits (mulMask targets mask) mask "mean")
  else
    crossEntropyMean A PAD_LABEL_ID (transpose12 logits) targets

/-- `SequenceLabelingModel._calculate_cl_loss`: the multi-view consistency
loss.  `ext_view_logits.detach()` only stops gradients and leaves values
unchanged.  Unknown loss types, and `'crf_kl'` without a CRF, raise
`NotImplementedError`. -/
def SequenceLabelingModel._calculate_cl_loss (A : Analytic) (m : SequenceLabelingModel)
    (ext_view_logits origin_view_logits : Tensor3) (mask : BoolMask) (T : ℚ) :
    Except PyError ℚ :=
  if m.multiview then
    let batch_size := ext_view_logits.length
    if m.mv_loss_type = "kl" then
      Except.ok (sum3 (mulScalar3 (mulScalar3
        (mulMaskUnsqueeze
          (klDiv3 A (logSoftmax3 A (divScalar3 origin_view_logits T))
            (softmax3 A (divScalar3 ext_view_logits T))) mask) T) T) / batch_size)
    else if m.mv_loss_type = "crf_kl" then
      if m.use_crf then
        let origin_view_log_posterior :=
          CRF.compute_posterior A (m.crf.getD crfAbsent) origin_view_logits mask
        let ext_view_log_posterior :=
          CRF.compute_posterior A (m.crf.getD crfAbsent) ext_view_logits mask
        Except.ok (sum3 (mulScalar3 (mulScalar3
          (mulMaskUnsqueeze
            (klDiv3 A (logSoftmax3 A (divScalar3 origin_view_log_posterior T))
              (softmax3 A (divScalar3 ext_view_log_posterior T))) mask) T) T) / batch_size)
      else Except.error PyError.notImplemented
    else Except.error PyError.notImplemented
  else Except.ok 0

/-- `SequenceLabelingModel.decode`: Viterbi through the CRF when it is
enabled (then `squeeze(0)` removes the n-best dimension), otherwise the
positionwise argmax of the logits. -/
def SequenceLabelingModel.decode (m : SequenceLabelingModel)
    (logits : Tensor3) (mask : BoolMask) : List (List ℕ) :=
  if m.use_crf then
    squeeze0 (CRF.decode (m.crf.getD crfAbsent) logits mask)
  else
    logits.map (fun seq => seq.map argmaxIdx)

/-- `logits.size(1)`: the sequence-position dimension of the logits. -/
def dim1 (t : Tensor3) : ℕ := (t.headD []).length

/-- The training-branch loss of `forward` (source lines 98-122): primary
loss on the augmented view, then the multi-view combination when
`multiview` is set and `origin_tokens` is given. -/
def SequenceLabelingModel.trainLoss (A : Analytic) (m : SequenceLabelingModel)
    (logits : Tensor3) (mask : BoolMask) (lids : List (List ℤ))
    (origin_tokens : Option Tokens) (origin_mask : Option BoolMask) :
    Except PyError ℚ :=
  let crf_mask := origin_mask.getD mask
  let loss := m._calculate_loss A logits lids crf_mask
  match origin_tokens, m.multiview with
  | some ot, true =>
    let origin_view_logits := m._forward ot
    let origin_mask2 := get_tokens_mask ot (dim1 origin_view_logits)
    let origin_view_loss := m._calculate_loss A origin_view_logits lids origin_mask2
    if m.mv_loss_type = "kl" then
      (m._calculate_cl_loss A logits origin_view_logits mask m.temperature).map
        (fun cl_kl_loss => m.mv_interpolation * (loss + origin_view_loss)
          + (1 - m.mv_interpolation) * cl_kl_loss)
    else if m.mv_loss_type = "crf_kl" then
      (m._calculate_cl_loss A logits origin_view_logits mask m.temperature).map
        (fun cl_kl_loss => m.mv_interpolation * (loss + origin_view_loss)
          + (1 - m.mv_interpolation) * cl_kl_loss)
    else Except.ok loss
  | _, _ => Except.ok loss

/-- `SequenceLabelingModel.forward`.  In training mode the label ids must
be present (Python would raise `TypeError` inside the loss otherwise); the
output dictionary is built once after the loss branches, as at source
lines 123 and 126. -/
def SequenceLabelingModel.forward (A : Analytic) (m : SequenceLabelingModel)
    (tokens : Tokens) (label_ids : Option (List (List ℤ)))
    (origin_tokens : Option Tokens) (origin_mask : Option BoolMask) :
    Except PyError Output :=
  let logits := m._forward tokens
  let mask := get_tokens_mask tokens (dim1 logits)
  if m.training then
    match label_ids with
    | none => Except.error PyError.typeError
    | some lids =>
      (m.trainLoss A logits mask lids origin_tokens origin_mask).map
        (fun loss => [("logits", OutVal.tensor logits), ("loss", OutVal.scalar loss)])
  else
    Except.ok [("logits", OutVal.tensor logits),
      ("predicts", OutVal.preds (m.decode logits mask))]

/-! ## Concrete instances, used to evaluate the theorems below on real inputs -/

/-- A concrete analytic context: a strictly monotone stand-in for `exp`,
positive on every input used below, and the identity for `log`. -/
def A0 : Analytic := { exp := fun x => x + 10, log := fun x => x }

/-- A concrete encoder of hidden size two. -/
def enc0 : Encoder :=
  { hidden_size := 2
    run := fun tk => tk.ids.map (fun r => r.map (fun i => [(i : ℚ), 1])) }

/-- A concrete one-sentence batch of two tokens. -/
def tok0 : Tokens := { ids := [[1, 2]], mask := [[true, true]] }

/-- A concrete CRF multiview model in training mode with loss type `'kl'`. -/
def mdlKL : SequenceLabelingModel :=
  SequenceLabelingModel.init [(0, "O"), (1, "B")] enc0 (fun i j => (i : ℚ) + j)
    (fun i => (i : ℚ)) (fun i j => (i : ℚ) - j) (fun _ _ => false) 0 true true 1 "kl"
    (1 / 2) false true

/-- The same configuration with the CRF disabled and loss type `'crf_kl'`. -/
def mdlCKL : SequenceLabelingModel :=
  SequenceLabelingModel.init [(0, "O"), (1, "B")] enc0 (fun i j => (i : ℚ) + j)
    (fun i => (i : ℚ)) (fun i j => (i : ℚ) - j) (fun _ _ => false) 0 false true 1 "crf_kl"
    (1 / 2) false true

/-- The CRF instance `mdlKL` was constructed with. -/
def crf0 : CRF := CRF.init 2 (fun i j => (i : ℚ) - j) CRFVariant.standard

/-- Concrete logits of one sentence, two positions, two labels. -/
def logits0 : Tensor3 := [[[1, 4], [1, 5]]]

/-- The dictionary returned by one concrete multiview training call. -/
def out0 : Output :=
  match SequenceLabelingModel.forward A0 mdlKL tok0 (some [[0, 1]]) (some tok0) none with
  | Except.ok o => o
  | Except.error _ => []

/-! ## Helper lemmas -/

theorem length_applyVec (l : Linear) (x : Vec) :
    (l.applyVec x).length = min l.weight.length l.bias.length := by
  simp [Linear.applyVec]

theorem init_linear_weight_length (inF outF : ℕ) (w : ℕ → ℕ → ℚ) (b : ℕ → ℚ) :
    (Linear.init inF outF w b).weight.length = outF := by
  simp [Linear.init]

theorem init_linear_bias_length (inF outF : ℕ) (w : ℕ → ℕ → ℚ) (b : ℕ → ℚ) :
    (Linear.init inF outF w b).bias.length = outF := by
  simp [Linear.init]

/-! ## Claims -/

/-- C6: in `_forward` the encoder embeddings pass through word dropout (when
enabled) before the linear projection; a model constructed with
`word_dropout = 0.0` has `use_dropout = False`, no dropout module at all,
and its embeddings reach the projection unchanged. -/
theorem word_dropout_before_projection
    (idl : List (ℕ × String)) (enc : Encoder) (w : ℕ → ℕ → ℚ) (b : ℕ → ℚ)
    (tr : ℕ → ℕ → ℚ) (dd : ℕ → ℕ → Bool) (uc mv : Bool) (T : ℚ)
    (mlt : String) (mi : ℚ) (pf trn : Bool) (tokens : Tokens)
    (m : SequenceLabelingModel) :
    (m._forward tokens = m.linear.apply3
        (if m.use_dropout
          then (m.dropout.getD dropoutAbsent).apply m.training (m.encoder.run tokens)
          else m.encoder.run tokens))
    ∧ ((SequenceLabelingModel.init idl enc w b tr dd 0 uc mv T mlt mi pf trn).use_dropout
        = false)
    ∧ ((SequenceLabelingModel.init idl enc w b tr dd 0 uc mv T mlt mi pf trn).dropout
        = none)
    ∧ ((SequenceLabelingModel.init idl enc w b tr dd 0 uc mv T mlt mi pf trn)._forward tokens
        = (SequenceLabelingModel.init idl enc w b tr dd 0 uc mv T mlt mi pf trn).linear.apply3
            (enc.run tokens)) := by
  refine ⟨rfl, ?_, ?_, ?_⟩
  · simp [SequenceLabelingModel.init]
  · simp [SequenceLabelingModel.init]
  · simp [SequenceLabelingModel.init, SequenceLabelingModel._forward]

/-- C7: the constructed linear layer maps embeddings of the encoder's
hidden size to logit vectors whose last dimension is the number of labels,
and the number of labels is the size of the `id_to_label` mapping. -/
theorem linear_projection_shape
    (idl : List (ℕ × String)) (enc : Encoder) (w : ℕ → ℕ → ℚ) (b : ℕ → ℚ)
    (tr : ℕ → ℕ → ℚ) (dd : ℕ → ℕ → Bool) (wd : ℚ) (uc mv : Bool) (T : ℚ)
    (mlt : String) (mi : ℚ) (pf trn : Bool) (tokens : Tokens) :
    ((SequenceLabelingModel.init idl enc w b tr dd wd uc mv T mlt mi pf trn).num_labels
        = idl.length)
    ∧ ((SequenceLabelingModel.init idl enc w b tr dd wd uc mv T mlt mi pf trn).linear.in_features
        = enc.hidden_size)
    ∧ ((SequenceLabelingModel.init idl enc w b tr dd wd uc mv T mlt mi pf trn).linear.out_features
        = (SequenceLabelingModel.init idl enc w b tr dd wd uc mv T mlt mi pf trn).num_labels)
    ∧ (∀ mat ∈ (SequenceLabelingModel.init idl enc w b tr dd wd uc mv T mlt mi pf trn)._forward
          tokens,
        ∀ row ∈ mat, row.length
          = (SequenceLabelingModel.init idl enc w b tr dd wd uc mv T mlt mi pf trn).num_labels) := by
  refine ⟨rfl, rfl, rfl, ?_⟩
  intro mat hmat row hrow
  simp only [SequenceLabelingModel._forward, Linear.apply3, List.mem_map] at hmat
  obtain ⟨m0, _, hm0⟩ := hmat
  subst hm0
  simp only [List.mem_map] at hrow
  obtain ⟨r0, _, hr0⟩ := hrow
  subst hr0
  rw [length_applyVec]
  simp [SequenceLabelingModel.init, init_linear_weight_length, init_linear_bias_length]

theorem getD_zipWith {α β γ : Type} (f : α → β → γ) (a : List α) (b : List β)
    (i : ℕ) (d : γ) (da : α) (db : β) (h1 : i < a.length) (h2 : i < b.length) :
    (List.zipWith f a b).getD i d = f (a.getD i da) (b.getD i db) := by
  rw [List.getD_eq_getElem _ _ (by simp [List.length_zipWith]; omega),
      List.getD_eq_getElem _ _ h1, List.getD_eq_getElem _ _ h2]
  exact List.getElem_zipWith

/-- C2: with the CRF enabled, `_calculate_loss` is the negated mean
sequence log-likelihood the CRF assigns to the batch (on the
mask-multiplied targets), so minimizing it maximizes log-likelihood. -/
theorem calculate_loss_crf_negated_mean_ll
    (A : Analytic) (m : SequenceLabelingModel) (logits : Tensor3)
    (targets : List (List ℤ)) (mask : BoolMask) (c : CRF)
    (hcrf : m.use_crf = true) (hc : m.crf = some c) :
    m._calculate_loss A logits targets mask
      = -(meanLogLikelihood A c logits (mulMask targets mask) mask) := by
  simp [SequenceLabelingModel._calculate_loss, hcrf, hc, CRF.forward, meanLogLikelihood]

/-- C8: in CRF mode `_calculate_loss` hands the CRF the targets multiplied
elementwise by the mask, so every masked-out position carries target `0`,
a valid label index, whatever padding id was stored there. -/
theorem crf_targets_masked
    (A : Analytic) (m : SequenceLabelingModel) (logits : Tensor3)
    (targets : List (List ℤ)) (mask : BoolMask)
    (hcrf : m.use_crf = true) :
    (m._calculate_loss A logits targets mask
        = -(CRF.forward A (m.crf.getD crfAbsent) logits (mulMask targets mask) mask "mean"))
    ∧ (∀ b t : ℕ, b < targets.length → b < mask.length →
        t < (targets.getD b []).length → t < (mask.getD b []).length →
        (mask.getD b []).getD t false = false →
        ((mulMask targets mask).getD b []).getD t 0 = 0) := by
  constructor
  · simp [SequenceLabelingModel._calculate_loss, hcrf]
  · intro b t hb1 hb2 ht1 ht2 hmb
    unfold mulMask
    rw [getD_zipWith _ targets mask b [] [] [] hb1 hb2,
      getD_zipWith _ _ _ t 0 0 false ht1 ht2, hmb]
    simp

/-- C3: every dictionary `forward` returns holds `logits`; it holds `loss`
(and not `predicts`) exactly in training mode and `predicts` (and not
`loss`) exactly in inference mode. -/
theorem forward_output_keys
    (A : Analytic) (m : SequenceLabelingModel) (tokens : Tokens)
    (lids : Option (List (List ℤ))) (ot : Option Tokens) (om : Option BoolMask)
    (out : Output)
    (hok : SequenceLabelingModel.forward A m tokens lids ot om = Except.ok out) :
    ((out.lookup "loss").isSome ↔ m.training = true)
    ∧ ((out.lookup "predicts").isSome ↔ m.training = false)
    ∧ (out.lookup "logits").isSome := by
  by_cases ht : m.training = true
  · cases lids with
    | none => simp [SequenceLabelingModel.forward, ht] at hok
    | some l =>
      simp only [SequenceLabelingModel.forward, ht, if_true] at hok
      cases h2 : m.trainLoss A (m._forward tokens)
          (get_tokens_mask tokens (dim1 (m._forward tokens))) l ot om with
      | error e => rw [h2] at hok; simp [Except.map] at hok
      | ok L =>
        rw [h2] at hok
        simp only [Except.map, Except.ok.injEq] at hok
        subst hok
        refine ⟨?_, ?_, ?_⟩ <;> simp [List.lookup, ht]
  · unfold SequenceLabelingModel.forward at hok
    rw [if_neg ht] at hok
    simp only [Except.ok.injEq] at hok
    subst hok
    simp only [Bool.not_eq_true] at ht
    refine ⟨?_, ?_, ?_⟩ <;> simp [List.lookup, ht]

/-- C9: with multiview on, a training call without `origin_tokens` — or
with an unrecognized `mv_loss_type` — returns just the primary
(augmented-view) loss and raises nothing. -/
theorem forward_multiview_degenerate
    (A : Analytic) (m : SequenceLabelingModel) (tokens : Tokens)
    (lids : List (List ℤ)) (om : Option BoolMask)
    (htrain : m.training = true) (hmv : m.multiview = true) :
    (SequenceLabelingModel.forward A m tokens (some lids) none om
      = Except.ok [("logits", OutVal.tensor (m._forward tokens)),
          ("loss", OutVal.scalar (m._calculate_loss A (m._forward tokens) lids
            (om.getD (get_tokens_mask tokens (dim1 (m._forward tokens))))))])
    ∧ (∀ ot : Tokens, m.mv_loss_type ≠ "kl" → m.mv_loss_type ≠ "crf_kl" →
        SequenceLabelingModel.forward A m tokens (some lids) (some ot) om
          = Except.ok [("logits", OutVal.tensor (m._forward tokens)),
              ("loss", OutVal.scalar (m._calculate_loss A (m._forward tokens) lids
                (om.getD (get_tokens_mask tokens (dim1 (m._forward tokens))))))]) := by
  constructor
  · simp [SequenceLabelingModel.forward, htrain, SequenceLabelingModel.trainLoss, Except.map]
  · intro ot h1 h2
    simp [SequenceLabelingModel.forward, htrain, SequenceLabelingModel.trainLoss, hmv, h1, h2,
      Except.map]

/-- C10: a multiview training call with `origin_tokens` given,
`mv_loss_type = 'crf_kl'` and the CRF disabled raises
`NotImplementedError`. -/
theorem forward_crf_kl_without_crf_raises
    (A : Analytic) (m : SequenceLabelingModel) (tokens ot : Tokens)
    (lids : List (List ℤ)) (om : Option BoolMask)
    (htrain : m.training = true) (hmv : m.multiview = true)
    (hty : m.mv_loss_type = "crf_kl") (hcrf : m.use_crf = false) :
    SequenceLabelingModel.forward A m tokens (some lids) (some ot) om
      = Except.error PyError.notImplemented := by
  simp [SequenceLabelingModel.forward, htrain, SequenceLabelingModel.trainLoss, hmv, hty,
    SequenceLabelingModel._calculate_cl_loss, hcrf, Except.map]

/-- C1: a multiview training call with `origin_tokens` given and loss type
`'kl'` or `'crf_kl'` that returns, returns as loss
`mv_interpolation * (augmented-view loss + origin-view loss)
+ (1 - mv_interpolation) * consistency loss`, both view losses computed by
`_calculate_loss` on the same `label_ids`. -/
theorem forward_multiview_combined_loss
    (A : Analytic) (m : SequenceLabelingModel) (tokens ot : Tokens)
    (lids : List (List ℤ)) (om : Option BoolMask) (out : Output)
    (htrain : m.training = true) (hmv : m.multiview = true)
    (hty : m.mv_loss_type = "kl" ∨ m.mv_loss_type = "crf_kl")
    (hok : SequenceLabelingModel.forward A m tokens (some lids) (some ot) om
      = Except.ok out) :
    ∃ cl, m._calculate_cl_loss A (m._forward tokens) (m._forward ot)
        (get_tokens_mask tokens (dim1 (m._forward tokens))) m.temperature = Except.ok cl
      ∧ out.lookup "loss" = some (OutVal.scalar
          (m.mv_interpolation
              * (m._calculate_loss A (m._forward tokens) lids
                  (om.getD (get_tokens_mask tokens (dim1 (m._forward tokens))))
                + m._calculate_loss A (m._forward ot) lids
                  (get_tokens_mask ot (dim1 (m._forward ot))))
            + (1 - m.mv_interpolation) * cl)) := by
  simp only [SequenceLabelingModel.forward, htrain, if_true,
    SequenceLabelingModel.trainLoss, hmv] at hok
  rcases hty with h | h
  · simp only [h, reduceIte] at hok
    cases hcl : m._calculate_cl_loss A (m._forward tokens) (m._forward ot)
        (get_tokens_mask tokens (dim1 (m._forward tokens))) m.temperature with
    | error e => rw [hcl] at hok; simp [Except.map] at hok
    | ok cl =>
      rw [hcl] at hok
      simp only [Except.map, Except.ok.injEq] at hok
      subst hok
      exact ⟨cl, rfl, rfl⟩
  · have hne : ¬ (("crf_kl" : String) = "kl") := by decide
    simp only [h, if_neg hne, reduceIte] at hok
    cases hcl : m._calculate_cl_loss A (m._forward tokens) (m._forward ot)
        (get_tokens_mask tokens (dim1 (m._forward tokens))) m.temperature with
    | error e => rw [hcl] at hok; simp [Except.map] at hok
    | ok cl =>
      rw [hcl] at hok
      simp only [Except.map, Except.ok.injEq] at hok
      subst hok
      exact ⟨cl, rfl, rfl⟩

theorem argmaxAux_map (f : ℚ → ℚ) (hf : ∀ a b : ℚ, f a < f b ↔ a < b) :
    ∀ (xs : List ℚ) (i bi : ℕ) (bv : ℚ),
      argmaxAux (xs.map f) i bi (f bv) = argmaxAux xs i bi bv := by
  intro xs
  induction xs with
  | nil => intro i bi bv; rfl
  | cons x xs ih =>
    intro i bi bv
    simp only [List.map_cons, argmaxAux]
    by_cases h : bv < x
    · rw [if_pos ((hf bv x).mpr h), if_pos h, ih]
    · rw [if_neg (fun hc => h ((hf bv x).mp hc)), if_neg h, ih]

theorem argmaxIdx_map (f : ℚ → ℚ) (hf : ∀ a b : ℚ, f a < f b ↔ a < b) (row : Vec) :
    argmaxIdx (row.map f) = argmaxIdx row := by
  cases row with
  | nil => rfl
  | cons x xs =>
    simp only [List.map_cons, argmaxIdx]
    exact argmaxAux_map f hf xs 1 0 x

theorem argmax_softmaxRow (A : Analytic) (row : Vec)
    (hmono : StrictMono A.exp) (hpos : 0 < (row.map A.exp).sum) :
    argmaxIdx (softmaxRow A row) = argmaxIdx row := by
  have hf : ∀ a b : ℚ,
      A.exp a / (row.map A.exp).sum < A.exp b / (row.map A.exp).sum ↔ a < b := by
    intro a b
    rw [div_lt_div_iff_of_pos_right hpos]
    exact ⟨fun h => hmono.lt_iff_lt.mp h, fun h => hmono h⟩
  exact argmaxIdx_map _ hf row

/-- C4: `decode` runs the CRF's Viterbi decode of the logits under the mask
when `use_crf` holds — the constructed CRF being the `PartialCRF` variant
exactly when `partial` was set at construction — and otherwise the
positionwise argmax of the logits, which agrees with softmax followed by
argmax. -/
theorem decode_crf_or_argmax
    (m : SequenceLabelingModel) (logits : Tensor3) (mask : BoolMask)
    (A : Analytic) (c : CRF)
    (hmono : StrictMono A.exp)
    (hpos : ∀ mat ∈ logits, ∀ row ∈ mat, 0 < (row.map A.exp).sum) :
    (m.use_crf = true → m.crf = some c →
        m.decode logits mask = squeeze0 (CRF.decode c logits mask))
    ∧ (m.use_crf = false →
        m.decode logits mask = logits.map (fun s => s.map argmaxIdx)
        ∧ m.decode logits mask = (softmax3 A logits).map (fun s => s.map argmaxIdx))
    ∧ (∀ (idl : List (ℕ × String)) (enc : Encoder) (w : ℕ → ℕ → ℚ) (b : ℕ → ℚ)
        (tr : ℕ → ℕ → ℚ) (dd : ℕ → ℕ → Bool) (wd T mi : ℚ) (mv : Bool)
        (mlt : String) (pf trn : Bool),
        (SequenceLabelingModel.init idl enc w b tr dd wd true mv T mlt mi pf trn).crf
          = some (CRF.init idl.length tr
              (if pf then CRFVariant.partialVariant else CRFVariant.standard))) := by
  refine ⟨?_, ?_, ?_⟩
  · intro h hc
    simp [SequenceLabelingModel.decode, h, hc]
  · intro h
    refine ⟨by simp [SequenceLabelingModel.decode, h], ?_⟩
    simp only [SequenceLabelingModel.decode, h, Bool.false_eq_true, if_false, softmax3,
      List.map_map]
    apply List.map_congr_left
    intro mat hmat
    simp only [Function.comp_apply, List.map_map, Function.comp_def]
    apply List.map_congr_left
    intro row hrow
    exact (argmax_softmaxRow A row hmono (hpos mat hmat row hrow)).symm
  · intro idl enc w b tr dd wd T mi mv mlt pf trn
    simp [SequenceLabelingModel.init]

theorem sum_map_mul_const (l : List ℚ) (c : ℚ) :
    (l.map (fun x => x * c)).sum = l.sum * c := by
  induction l with
  | nil => simp
  | cons x xs ih => simp [ih, add_mul]

/-- The `'kl'` consistency loss the way the specification words it: for
every batch element and position, the mask value times the temperature
squared times the pointwise KL divergence between the origin view's
temperature-T log-softmax distribution (the input) and the augmented
view's temperature-T softmax distribution (the target), summed over all
elements and divided by the batch size. -/
def specConsistencyLoss (A : Analytic) (T : ℚ) (ext orig : Tensor3)
    (mask : BoolMask) : ℚ :=
  (List.zipWith (fun (mats : Mat × Mat) mrow =>
    (List.zipWith (fun (rows : Vec × Vec) b => maskVal b * (T * T) *
      (List.zipWith (klDivElem A) rows.1 rows.2).sum)
      (mats.1.zip mats.2) mrow).sum)
    ((logSoftmax3 A (divScalar3 orig T)).zip (softmax3 A (divScalar3 ext T))) mask).sum
  / ext.length

theorem staged_mat_sum (A : Analytic) (T : ℚ) :
    ∀ (P Q : Mat) (mrow : List Bool),
    ((((List.zipWith (fun r b => r.map (fun x => x * maskVal b))
        (List.zipWith (fun ri rt => List.zipWith (klDivElem A) ri rt) P Q) mrow).map
      (fun r => r.map (fun x => x * T))).map
        (fun r => r.map (fun x => x * T))).map List.sum).sum
      = (List.zipWith (fun (rows : Vec × Vec) b => maskVal b * (T * T) *
          (List.zipWith (klDivElem A) rows.1 rows.2).sum) (P.zip Q) mrow).sum := by
  intro P
  induction P with
  | nil => intro Q mrow; cases Q <;> cases mrow <;> simp
  | cons p ps ih =>
    intro Q mrow
    cases Q with
    | nil => cases mrow <;> simp
    | cons q qs =>
      cases mrow with
      | nil => simp
      | cons b bs =>
        simp only [List.map_cons, List.zipWith_cons_cons, List.zip_cons_cons, List.sum_cons]
        rw [sum_map_mul_const, sum_map_mul_const, sum_map_mul_const, ih qs bs]
        ring

theorem staged_tensor_sum (A : Analytic) (T : ℚ) :
    ∀ (Pt Qt : Tensor3) (mask : BoolMask),
    sum3 (mulScalar3 (mulScalar3 (mulMaskUnsqueeze (klDiv3 A Pt Qt) mask) T) T)
      = (List.zipWith (fun (mats : Mat × Mat) mrow =>
          (List.zipWith (fun (rows : Vec × Vec) b => maskVal b * (T * T) *
            (List.zipWith (klDivElem A) rows.1 rows.2).sum)
            (mats.1.zip mats.2) mrow).sum)
          (Pt.zip Qt) mask).sum := by
  intro Pt
  induction Pt with
  | nil =>
    intro Qt mask
    cases Qt <;> cases mask <;> simp [sum3, mulScalar3, mulMaskUnsqueeze, klDiv3]
  | cons P Ps ih =>
    intro Qt mask
    cases Qt with
    | nil => cases mask <;> simp [sum3, mulScalar3, mulMaskUnsqueeze, klDiv3]
    | cons Q Qs =>
      cases mask with
      | nil => simp [sum3, mulScalar3, mulMaskUnsqueeze, klDiv3]
      | cons mr mrs =>
        have hstep := ih Qs mrs
        simp only [sum3, mulScalar3, mulMaskUnsqueeze, klDiv3] at hstep
        simp only [sum3, mulScalar3, mulMaskUnsqueeze, klDiv3, List.map_cons,
          List.zipWith_cons_cons, List.zip_cons_cons, List.sum_cons]
        rw [hstep]
        congr 1
        exact staged_mat_sum A T P Q mr

/-- C5: with multiview on and `mv_loss_type = 'kl'`, `_calculate_cl_loss`
returns exactly the spec's consistency loss: elementwise KL divergence
between the origin view's temperature-T log-softmax and the augmented
view's temperature-T softmax (the augmented view as target), masked per
token and position, times T squared, summed over all elements, divided by
the batch size. -/
theorem cl_loss_kl_spec (A : Analytic) (m : SequenceLabelingModel)
    (ext orig : Tensor3) (mask : BoolMask) (T : ℚ)
    (hmv : m.multiview = true) (hk : m.mv_loss_type = "kl") :
    m._calculate_cl_loss A ext orig mask T
      = Except.ok (specConsistencyLoss A T ext orig mask) := by
  simp only [SequenceLabelingModel._calculate_cl_loss, hmv, hk, if_true, reduceIte]
  rw [specConsistencyLoss, staged_tensor_sum]

/-! ## Witnesses: the theorems above evaluated at the concrete instances -/

/-- Witness for C1 at the concrete multiview model and batch. -/
theorem forward_multiview_combined_loss_witness :
    ∃ cl, mdlKL._calculate_cl_loss A0 (mdlKL._forward tok0) (mdlKL._forward tok0)
        (get_tokens_mask tok0 (dim1 (mdlKL._forward tok0))) mdlKL.temperature = Except.ok cl
      ∧ out0.lookup "loss" = some (OutVal.scalar
          (mdlKL.mv_interpolation
              * (mdlKL._calculate_loss A0 (mdlKL._forward tok0) [[0, 1]]
                  ((none : Option BoolMask).getD
                    (get_tokens_mask tok0 (dim1 (mdlKL._forward tok0))))
                + mdlKL._calculate_loss A0 (mdlKL._forward tok0) [[0, 1]]
                  (get_tokens_mask tok0 (dim1 (mdlKL._forward tok0))))
            + (1 - mdlKL.mv_interpolation) * cl)) :=
  forward_multiview_combined_loss A0 mdlKL tok0 tok0 [[0, 1]] none out0 rfl rfl
    (Or.inl rfl) rfl

/-- Witness for C2 at concrete logits, targets and mask. -/
theorem calculate_loss_crf_negated_mean_ll_witness :
    mdlKL._calculate_loss A0 logits0 [[0, 1]] [[true, true]]
      = -(meanLogLikelihood A0 crf0 logits0
          (mulMask [[0, 1]] [[true, true]]) [[true, true]]) :=
  calculate_loss_crf_negated_mean_ll A0 mdlKL logits0 [[0, 1]] [[true, true]] crf0 rfl rfl

/-- Witness for C3 at a concrete training call. -/
theorem forward_output_keys_witness :
    ((out0.lookup "loss").isSome ↔ mdlKL.training = true)
    ∧ ((out0.lookup "predicts").isSome ↔ mdlKL.training = false)
    ∧ (out0.lookup "logits").isSome :=
  forward_output_keys A0 mdlKL tok0 (some [[0, 1]]) (some tok0) none out0 rfl

/-- Witness for C4 at the concrete CRF model and logits. -/
theorem decode_crf_or_argmax_witness :
    mdlKL.decode logits0 [[true, true]]
      = squeeze0 (CRF.decode crf0 logits0 [[true, true]]) := by
  have hm : StrictMono A0.exp := fun a b h => by simpa [A0] using h
  have hp : ∀ mat ∈ logits0, ∀ row ∈ mat, 0 < (row.map A0.exp).sum := by
    intro mat hmat row hrow
    simp only [logits0, List.mem_singleton] at hmat
    subst hmat
    simp only [List.mem_cons, List.mem_singleton] at hrow
    rcases hrow with h | h | h
    · subst h; norm_num [A0]
    · subst h; norm_num [A0]
    · exact absurd h (List.not_mem_nil row)
  exact (decode_crf_or_argmax mdlKL logits0 [[true, true]] A0 crf0 hm hp).1 rfl rfl

/-- Witness for C5 at concrete views and mask. -/
theorem cl_loss_kl_spec_witness :
    mdlKL._calculate_cl_loss A0 logits0 logits0 [[true, true]] 1
      = Except.ok (specConsistencyLoss A0 1 logits0 logits0 [[true, true]]) :=
  cl_loss_kl_spec A0 mdlKL logits0 logits0 [[true, true]] 1 rfl rfl

/-- Witness for C8 at a batch whose second position is padding. -/
theorem crf_targets_masked_witness :
    (mdlKL._calculate_loss A0 logits0 [[0, PAD_LABEL_ID]] [[true, false]]
        = -(CRF.forward A0 (mdlKL.crf.getD crfAbsent) logits0
            (mulMask [[0, PAD_LABEL_ID]] [[true, false]]) [[true, false]] "mean"))
    ∧ (∀ b t : ℕ, b < ([[0, PAD_LABEL_ID]] : List (List ℤ)).length
        → b < ([[true, false]] : BoolMask).length
        → t < (([[0, PAD_LABEL_ID]] : List (List ℤ)).getD b []).length
        → t < (([[true, false]] : BoolMask).getD b []).length
        → (([[true, false]] : BoolMask).getD b []).getD t false = false
        → ((mulMask [[0, PAD_LABEL_ID]] [[true, false]]).getD b []).getD t 0 = 0) :=
  crf_targets_masked A0 mdlKL logits0 [[0, PAD_LABEL_ID]] [[true, false]] rfl

/-- Witness for C9 at the concrete multiview model. -/
theorem forward_multiview_degenerate_witness :
    (SequenceLabelingModel.forward A0 mdlKL tok0 (some [[0, 1]]) none none
      = Except.ok [("logits", OutVal.tensor (mdlKL._forward tok0)),
          ("loss", OutVal.scalar (mdlKL._calculate_loss A0 (mdlKL._forward tok0) [[0, 1]]
            ((none : Option BoolMask).getD
              (get_tokens_mask tok0 (dim1 (mdlKL._forward tok0))))))])
    ∧ (∀ ot : Tokens, mdlKL.mv_loss_type ≠ "kl" → mdlKL.mv_loss_type ≠ "crf_kl" →
        SequenceLabelingModel.forward A0 mdlKL tok0 (some [[0, 1]]) (some ot) none
          = Except.ok [("logits", OutVal.tensor (mdlKL._forward tok0)),
              ("loss", OutVal.scalar (mdlKL._calculate_loss A0 (mdlKL._forward tok0) [[0, 1]]
                ((none : Option BoolMask).getD
                  (get_tokens_mask tok0 (dim1 (mdlKL._forward tok0))))))]) :=
  forward_multiview_degenerate A0 mdlKL tok0 [[0, 1]] none rfl rfl

/-- Witness for C10 at a concrete `'crf_kl'` model without a CRF. -/
theorem forward_crf_kl_without_crf_raises_witness :
    SequenceLabelingModel.forward A0 mdlCKL tok0 (some [[0, 1]]) (some tok0) none
      = Except.error PyError.notImplemented :=
  forward_crf_kl_without_crf_raises A0 mdlCKL tok0 tok0 [[0, 1]] none rfl rfl rfl rfl

end AdaSeq
